import Mathlib

/-!
# Pastie: the image list model (`imagelist.cpp`)

A shallow embedding of `ImageList`, the table model that owns the loaded
images, together with the small part of Qt 5 it is built on:

* `QList<Image *>` is embedded at the level of `QListData` (a block of pointer
  slots with a `begin` and an `end` offset), because `ImageList::clear`
  removes elements while a range-`for` walks the same block;
* `QItemSelectionModel` is embedded with its current index, its committed
  selection, its in-progress selection and the selection command flags;
* `QFileInfo` is embedded over an explicit file-system state;
* signals and calls on external collaborators are appended to a log.

Pointers are natural numbers, `0` being the null pointer.
-/

namespace Pastie

/-! ## Strings and file information -/

/-- A `QString`, as its sequence of characters. -/
abbrev QString := List Char

/-- Counterpart of `QString::toLower`.  Qt folds case by Unicode, the embedding
folds the ASCII letters; the two agree on every ASCII string. -/
def QString.toLower (s : QString) : QString := s.map Char.toLower

/-- What the file system knows about an existing path. -/
structure FileStat where
  isFile : Bool
  size : Nat
  deriving DecidableEq, Repr

/-- A file-system state: the status of every path that exists. -/
abbrev FileSystem := QString → Option FileStat

namespace QFileInfo

/-- Counterpart of `QFileInfo::fileName`: the characters after the last `/`. -/
def fileName (path : QString) : QString :=
  (path.reverse.takeWhile (fun c => c != '/')).reverse

/-- Counterpart of `QFileInfo::suffix`: the characters of the file name after
its last `.`, empty when the name has no `.`. -/
def suffix (path : QString) : QString :=
  let name := fileName path
  if name.contains '.' then (name.reverse.takeWhile (fun c => c != '.')).reverse else []

/-- Counterpart of `QFileInfo::baseName`: the characters of the file name up to
its first `.`. -/
def baseName (path : QString) : QString :=
  (fileName path).takeWhile (fun c => c != '.')

/-- Counterpart of `QFileInfo::exists`. -/
def «exists» (fs : FileSystem) (path : QString) : Bool := (fs path).isSome

/-- Counterpart of `QFileInfo::isFile`. -/
def isFile (fs : FileSystem) (path : QString) : Bool :=
  match fs path with
  | some st => st.isFile
  | none => false

/-- Counterpart of `QFileInfo::size`: the size in bytes, `0` for a path that
does not exist. -/
def size (fs : FileSystem) (path : QString) : Nat :=
  match fs path with
  | some st => st.size
  | none => 0

end QFileInfo

/-! ## Images

An `Image *` is a natural number, the address of the image; `0` is the null
pointer. -/

/-- The part of a `cv::Mat` that the table shows. -/
structure Mat where
  channels : Int
  cols : Int
  rows : Int
  deriving DecidableEq, Repr

/-- Modelled from the spec: `ImageEntry` (class `Image` of `image.h`, which is
not among the sources): the path given at construction, whether the pixel data
has been decoded, and the decoded buffer read by `getSourceMat`. -/
structure Image where
  path : QString
  loaded : Bool
  sourceMat : Mat
  deriving DecidableEq, Repr

/-- A `QImage`, reduced to the width that `ImageList::save` reads. -/
structure QImage where
  width : Int
  deriving DecidableEq, Repr

/-- Everything outside `imagelist.cpp` that its functions consult. -/
structure Env where
  /-- The file-system state seen by `QFileInfo`. -/
  fs : FileSystem
  /-- State of a freshly constructed `Image(path)`: its loaded flag and buffer
  (the constructor is declared in `image.h`). -/
  construct : QString → Bool × Mat
  /-- Result of `Image::getQImage` (declared in `image.h`). -/
  getQImage : Image → QImage
  /-- Whether the number formatter rounds an exact tie away from zero (Qt's
  bundled double-conversion) or to the even digit (David Gay's `dtoa`). -/
  tiesAway : Bool

/-- Modelled from the spec: the constructor `Image(path)` of `image.h`, which
is not among the sources; it records the path. -/
def Image.new (env : Env) (file : QString) : Image :=
  { path := file, loaded := (env.construct file).1, sourceMat := (env.construct file).2 }

/-! ## `QListData`: the storage of `QList<Image *>` -/

/-- Counterpart of `QListData::Data`: `array` is the allocated block (`alloc`
is its length), the elements are the slots `begin .. end - 1`. -/
structure QListData where
  array : List Nat
  begin : Nat
  end_ : Nat
  deriving DecidableEq, Repr

namespace QListData

/-- Counterpart of `QListData::shared_null`, the storage of an empty list. -/
def sharedNull : QListData := { array := [], begin := 0, end_ := 0 }

/-- Representation invariant of `QListData`. -/
def WF (d : QListData) : Prop := d.begin ≤ d.end_ ∧ d.end_ ≤ d.array.length

instance (d : QListData) : Decidable d.WF := by unfold WF; infer_instance

/-- Counterpart of `QListData::size`. -/
def size (d : QListData) : Nat := d.end_ - d.begin

/-- The elements in order: slots `begin .. end - 1`. -/
def toList (d : QListData) : List Nat := (d.array.take d.end_).drop d.begin

/-- Counterpart of `QList::at`: defined for `0 ≤ i < size` only. -/
def «at» (d : QListData) (i : Int) : Option Nat :=
  if 0 ≤ i ∧ i < d.size then d.array.get? (d.begin + i.toNat) else none

/-- Counterpart of `QList::value(int)`: a default-constructed value (the null
pointer) when `i` is out of bounds. -/
def value (d : QListData) (i : Int) : Nat :=
  if i < 0 ∨ i ≥ d.size then 0 else d.array.getD (d.begin + i.toNat) 0

/-- Counterpart of `memmove(array + dst, array + src, n * sizeof(void *))`. -/
def memmove (a : List Nat) (dst src n : Nat) : List Nat :=
  a.take dst ++ (a.drop src).take n ++ a.drop (dst + n)

/-- Counterpart of `QListData::append(1)` followed by the store of the new
element, as `QList::append` does for a pointer type.  When the block is full
and at least two thirds of it lie before `begin`, the elements are moved to
the front; otherwise the block is reallocated (the model grows it by the slot
requested, the capacity not being observable). -/
def append (d : QListData) (t : Nat) : QListData :=
  let e := d.end_
  let alloc := d.array.length
  if e + 1 > alloc then
    let b := d.begin
    if b ≥ 1 ∧ b - 1 ≥ 2 * alloc / 3 then
      let e1 := e - b
      let a := memmove d.array 0 b e1
      { array := a.set e1 t, begin := 0, end_ := e1 + 1 }
    else
      { array := (d.array ++ [0]).set e t, begin := b, end_ := e + 1 }
  else
    { array := d.array.set e t, begin := d.begin, end_ := e + 1 }

/-- Counterpart of `QListData::remove(int)`: the shorter side of the block is
moved over the removed slot. -/
def remove (d : QListData) (i : Nat) : QListData :=
  let i := i + d.begin
  if i - d.begin < d.end_ - i then
    let offset := i - d.begin
    { array := if offset = 0 then d.array else memmove d.array (d.begin + 1) d.begin offset,
      begin := d.begin + 1, end_ := d.end_ }
  else
    let offset := d.end_ - i - 1
    { array := if offset = 0 then d.array else memmove d.array i (i + 1) offset,
      begin := d.begin, end_ := d.end_ - 1 }

/-- Counterpart of `QList::indexOf`: the first position holding `t`. -/
def indexOf (d : QListData) (t : Nat) : Option Nat := d.toList.indexOf? t

/-- Counterpart of `QList::removeOne`: `indexOf`, then `removeAt` (which for a
pointer element is `QListData::remove`). -/
def removeOne (d : QListData) (t : Nat) : QListData :=
  match d.indexOf t with
  | some i => if i < d.size then d.remove i else d
  | none => d

end QListData

/-! ## Model indexes and the selection model -/

/-- Counterpart of `QModelIndex`: row, column and whether it carries a model
pointer (`m != nullptr`). -/
structure QModelIndex where
  row : Int
  column : Int
  hasModel : Bool
  deriving DecidableEq, Repr

namespace QModelIndex

/-- Counterpart of the default-constructed `QModelIndex()`. -/
def invalid : QModelIndex := { row := -1, column := -1, hasModel := false }

/-- Counterpart of `QModelIndex::isValid`. -/
def isValid (i : QModelIndex) : Bool := decide (0 ≤ i.row) && decide (0 ≤ i.column) && i.hasModel

end QModelIndex

/-- Counterpart of `QItemSelectionModel::SelectionFlags`, one field per bit. -/
structure SelectionFlags where
  clear : Bool := false
  select : Bool := false
  deselect : Bool := false
  toggle : Bool := false
  current : Bool := false
  rows : Bool := false
  columns : Bool := false
  deriving DecidableEq, Repr

namespace SelectionFlags

/-- Counterpart of `QItemSelectionModel::NoUpdate`. -/
def NoUpdate : SelectionFlags := {}

/-- Counterpart of `QItemSelectionModel::Clear`. -/
def Clear : SelectionFlags := { clear := true }

/-- Counterpart of `QItemSelectionModel::Current` (bit `0x0010`). -/
def Current : SelectionFlags := { current := true }

end SelectionFlags

/-- Counterpart of `QItemSelection`, as the cells `(row, column)` its ranges
cover. -/
abbrev QItemSelection := List (Int × Int)

namespace QItemSelection

/-- Counterpart of `QItemSelection(topLeft, bottomRight)` with both corners
equal to `index`: empty for an invalid index. -/
def ofIndex (index : QModelIndex) : QItemSelection :=
  if index.isValid then [(index.row, index.column)] else []

/-- Counterpart of `QItemSelection::merge`: the cells shared with `other` are
cut out of the receiver (and, for `Toggle`, out of `other`), then `other` is
added unless the command is `Deselect`. -/
def merge (self other : QItemSelection) (command : SelectionFlags) : QItemSelection :=
  if other.isEmpty || !(command.select || command.deselect || command.toggle) then self
  else
    let kept := self.filter (fun c => !other.contains c)
    let added := if command.toggle then other.filter (fun c => !self.contains c) else other
    if command.deselect then kept else kept ++ added

end QItemSelection

/-- Signals emitted by the model and its selection model, and calls made on
external collaborators, in the order they happen.  `newImage` is the signal of
`ImageList`; `painterSetRatio width` stands for `Painter::setRatio(1e-3 * width)`,
`painterDrawOverlay` for `Painter::drawOverlay` and `imageSaved` for
`QImage::save`. -/
inductive Event where
  | rowsAboutToBeInserted (first last : Int)
  | rowsInserted (first last : Int)
  | modelAboutToBeReset
  | modelReset
  | selectionChanged (selected deselected : QItemSelection)
  | currentChanged (current previous : QModelIndex)
  | currentRowChanged (current previous : QModelIndex)
  | currentColumnChanged (current previous : QModelIndex)
  | newImage (img : Nat)
  | painterSetRatio (width : Int)
  | painterDrawOverlay (img : Nat)
  | imageSaved (path : QString)
  deriving DecidableEq, Repr

/-- Counterpart of `QItemSelectionModelPrivate`: the committed selection
`ranges`, the in-progress `currentSelection` with its command, and the current
index. -/
structure QItemSelectionModel where
  ranges : QItemSelection
  currentSelection : QItemSelection
  currentCommand : SelectionFlags
  currentIndex : QModelIndex
  deriving DecidableEq, Repr

namespace QItemSelectionModel

/-- A freshly constructed selection model. -/
def init : QItemSelectionModel :=
  { ranges := [], currentSelection := [], currentCommand := SelectionFlags.NoUpdate,
    currentIndex := QModelIndex.invalid }

/-- Counterpart of `QItemSelectionModel::selection`. -/
def selection (m : QItemSelectionModel) : QItemSelection :=
  QItemSelection.merge m.ranges m.currentSelection m.currentCommand

/-- Counterpart of `QItemSelectionModel::isRowSelected`: every column of the row
is selected. -/
def isRowSelected (m : QItemSelectionModel) (columnCount : Nat) (row : Int) : Bool :=
  (List.range columnCount).all (fun k => m.selection.contains (row, (k : Int)))

/-- Counterpart of `QItemSelectionModel::selectedRows`: the rows of the
selection, each once, that are selected in every column. -/
def selectedRows (m : QItemSelectionModel) (columnCount : Nat) : List Int :=
  (m.selection.map Prod.fst).eraseDups.filter (fun row => m.isRowSelected columnCount row)

/-- Counterpart of `QItemSelectionModelPrivate::expandSelection` for a table of
`rowCount` by `columnCount` cells. -/
def expandSelection (rowCount columnCount : Nat) (sel : QItemSelection)
    (command : SelectionFlags) : QItemSelection :=
  let byRows : QItemSelection :=
    if command.rows then
      (sel.filter (fun c => decide (0 ≤ c.1) && decide (c.1 < (rowCount : Int)))).flatMap
        (fun c => (List.range columnCount).map (fun k => (c.1, (k : Int))))
    else []
  let byColumns : QItemSelection :=
    if command.columns then
      (sel.filter (fun c => decide (0 ≤ c.2) && decide (c.2 < (columnCount : Int)))).flatMap
        (fun c => (List.range rowCount).map (fun k => ((k : Int), c.2)))
    else []
  let selectCommand : SelectionFlags := { select := true }
  QItemSelection.merge (QItemSelection.merge [] byRows selectCommand) byColumns selectCommand

/-- Counterpart of `QItemSelectionModel::emitSelectionChanged`. -/
def emitSelectionChanged (newSel oldSel : QItemSelection) : List Event :=
  let selected := newSel.filter (fun c => !oldSel.contains c)
  let deselected := oldSel.filter (fun c => !newSel.contains c)
  if selected.isEmpty && deselected.isEmpty then []
  else [Event.selectionChanged selected deselected]

/-- Counterpart of `QItemSelectionModelPrivate::finalize`. -/
def finalize (m : QItemSelectionModel) : QItemSelectionModel :=
  { m with
    ranges := QItemSelection.merge m.ranges m.currentSelection m.currentCommand,
    currentSelection := [] }

/-- Counterpart of `QItemSelectionModel::select(const QItemSelection &, SelectionFlags)`.
The current index is not touched; `Current` only keeps the in-progress
selection from being committed. -/
def select (m : QItemSelectionModel) (rowCount columnCount : Nat) (sel : QItemSelection)
    (command : SelectionFlags) : QItemSelectionModel × List Event :=
  if command = SelectionFlags.NoUpdate then (m, [])
  else
    let old := m.selection
    let sel := if command.rows || command.columns then
      expandSelection rowCount columnCount sel command else sel
    let m := if command.clear then { m with ranges := [], currentSelection := [] } else m
    let m := if !command.current then m.finalize else m
    let m := if command.toggle || command.select || command.deselect then
      { m with currentCommand := command, currentSelection := sel } else m
    (m, emitSelectionChanged m.selection old)

/-- Counterpart of `QItemSelectionModel::setCurrentIndex`, without the slots
connected to its signals. -/
def setCurrentIndex (m : QItemSelectionModel) (rowCount columnCount : Nat)
    (index : QModelIndex) (command : SelectionFlags) : QItemSelectionModel × List Event :=
  if index = m.currentIndex then
    if command ≠ SelectionFlags.NoUpdate then
      select m rowCount columnCount (QItemSelection.ofIndex index) command
    else (m, [])
  else
    let previous := m.currentIndex
    let m := { m with currentIndex := index }
    let r := if command ≠ SelectionFlags.NoUpdate then
      select m rowCount columnCount (QItemSelection.ofIndex index) command else (m, [])
    (r.1, r.2 ++ [Event.currentChanged index previous]
      ++ (if index.row ≠ previous.row then [Event.currentRowChanged index previous] else [])
      ++ (if index.column ≠ previous.column then [Event.currentColumnChanged index previous]
          else []))

/-- Counterpart of `QItemSelectionModel::reset`: `clear` (that is
`clearSelection` then `clearCurrentIndex`) with the signals blocked. -/
def reset (m : QItemSelectionModel) (rowCount columnCount : Nat) : QItemSelectionModel :=
  let m := if m.ranges.isEmpty && m.currentSelection.isEmpty then m
    else (select m rowCount columnCount [] SelectionFlags.Clear).1
  { m with currentIndex := QModelIndex.invalid }

/-- Reaction to `rowsAboutToBeInserted` and `rowsInserted`: the in-progress
selection is committed, and the persistent indexes at or below the first new
row move down by the number of rows inserted. -/
def rowsInserted (m : QItemSelectionModel) (first count : Int) : QItemSelectionModel :=
  let m := m.finalize
  let shift (r : Int) : Int := if first ≤ r then r + count else r
  { m with
    ranges := m.ranges.map (fun c => (shift c.1, c.2)),
    currentIndex := if m.currentIndex.isValid then
      { m.currentIndex with row := shift m.currentIndex.row } else m.currentIndex }

end QItemSelectionModel

/-! ## Number formatting -/

/-- Conversion of a file size (`qint64`, not negative) to `double`, as the
division `fi.size() / 1024.0` performs it: exact below `2^53`, rounded to 53
significant bits (ties to even) from there on.  The result is again a whole
number. -/
def toDouble (n : Nat) : Nat :=
  if n < 2 ^ 53 then n
  else
    let e := Nat.log2 n - 52
    let q := n / 2 ^ e
    let r := n % 2 ^ e
    let half := 2 ^ (e - 1)
    let q := if r > half ∨ (r = half ∧ q % 2 = 1) then q + 1 else q
    q * 2 ^ e

/-- The hundredths shown for the `double` value `d / 1024` (the division by
`1024.0` is exact): the nearest whole number of hundredths, an exact tie going
up or to the even one. -/
def hundredths (tiesAway : Bool) (d : Nat) : Nat :=
  let q := d * 100 / 1024
  let r := d * 100 % 1024
  if 2 * r > 1024 then q + 1
  else if 2 * r = 1024 then (if tiesAway then q + 1 else if q % 2 = 0 then q else q + 1)
  else q

/-- Counterpart of formatting `d / 1024` with format `f` and precision 2. -/
def formatFixed2 (tiesAway : Bool) (d : Nat) : QString :=
  let h := hundredths tiesAway d
  Nat.toDigits 10 (h / 100) ++ ['.', Nat.digitChar (h / 10 % 10), Nat.digitChar (h % 10)]

/-! ## The image list -/

/-- Ways in which a call leaves defined behaviour; the embedding stops there. -/
inductive Fault where
  | nullDereference
  | danglingPointer
  | outOfRange
  deriving DecidableEq, Repr

deriving instance DecidableEq for Except

/-- Counterpart of `QVariant`, for the values `ImageList::data` returns;
`invalid` is the default-constructed `QVariant()`. -/
inductive QVariant where
  | invalid
  | string (s : QString)
  | int (n : Int)
  | alignment (flag : Int)
  deriving DecidableEq, Repr

/-- Counterpart of `Qt::DisplayRole`. -/
def DisplayRole : Int := 0

/-- Counterpart of `Qt::TextAlignmentRole`. -/
def TextAlignmentRole : Int := 7

/-- Counterpart of `Qt::AlignLeft`. -/
def AlignLeft : Int := 1

/-- Counterpart of `Qt::AlignRight`. -/
def AlignRight : Int := 2

/-- State of an `ImageList`: the `QList<Image *>` base, the `selection` member,
the free store holding the images (`top` is the last address handed out by
`new`), and the log of signals and collaborator calls. -/
structure ImageList where
  p : QListData
  selection : QItemSelectionModel
  heap : List (Nat × Image)
  top : Nat
  log : List Event
  deriving DecidableEq, Repr

namespace ImageList

/-- Counterpart of the constructor `ImageList::ImageList`: an empty list and a
fresh selection model.  The slot it connects to `currentChanged` is
`onCurrentChanged`. -/
def init : ImageList :=
  { p := QListData.sharedNull, selection := QItemSelectionModel.init, heap := [], top := 0,
    log := [] }

/-- Counterpart of `QList::count`. -/
def count (s : ImageList) : Nat := s.p.size

/-- Counterpart of `ImageList::rowCount`. -/
def rowCount (s : ImageList) : Nat := s.count

/-- Counterpart of `ImageList::columnCount`. -/
def columnCount : Nat := 6

/-- The entries in display order. -/
def entries (s : ImageList) : List Nat := s.p.toList

/-- Read through an `Image *`: a fault for the null pointer and for an
address that holds no image. -/
def deref (s : ImageList) (img : Nat) : Except Fault Image :=
  if img = 0 then Except.error Fault.nullDereference
  else match s.heap.lookup img with
    | some image => Except.ok image
    | none => Except.error Fault.danglingPointer

/-- Counterpart of `new Image(file)`: the image is stored at a fresh address. -/
def allocate (env : Env) (s : ImageList) (file : QString) : Nat × ImageList :=
  (s.top + 1, { s with heap := (s.top + 1, Image.new env file) :: s.heap, top := s.top + 1 })

/-- Counterpart of `delete img`. -/
def delete (s : ImageList) (img : Nat) : ImageList :=
  { s with heap := s.heap.filter (fun b => b.1 != img) }

/-- Counterpart of `QAbstractItemModel::createIndex`. -/
def createIndex (row column : Int) : QModelIndex :=
  { row := row, column := column, hasModel := true }

/-- Counterpart of `QAbstractItemModel::hasIndex`. -/
def hasIndex (s : ImageList) (row column : Int) : Bool :=
  if row < 0 ∨ column < 0 then false
  else decide (row < (s.rowCount : Int)) && decide (column < (columnCount : Int))

/-- Counterpart of `QAbstractTableModel::index`. -/
def index (s : ImageList) (row column : Int) : QModelIndex :=
  if s.hasIndex row column then createIndex row column else QModelIndex.invalid

/-- Fallthrough target `case 5` of the display switch in `ImageList::data`. -/
def dataCase5 (image : Image) : QVariant :=
  if image.loaded then QVariant.int image.sourceMat.rows else QVariant.invalid

/-- Fallthrough target `case 4` of the display switch in `ImageList::data`. -/
def dataCase4 (image : Image) : QVariant :=
  if image.loaded then QVariant.int image.sourceMat.cols else dataCase5 image

/-- Entry `case 3` of the display switch in `ImageList::data`. -/
def dataCase3 (image : Image) : QVariant :=
  if image.loaded then QVariant.int image.sourceMat.channels else dataCase4 image

/-- Counterpart of `ImageList::data`. -/
def data (env : Env) (s : ImageList) (index : QModelIndex) (role : Int) :
    Except Fault QVariant :=
  match s.p.«at» index.row with
  | none => Except.error Fault.outOfRange
  | some img =>
    match s.deref img with
    | Except.error f => Except.error f
    | Except.ok image =>
      let fi := image.path
      if role = DisplayRole then
        if index.column = 0 then Except.ok (QVariant.string (QFileInfo.baseName fi))
        else if index.column = 1 then Except.ok (QVariant.string (QFileInfo.suffix fi).toLower)
        else if index.column = 2 then
          Except.ok (QVariant.string
            (formatFixed2 env.tiesAway (toDouble (QFileInfo.size env.fs fi)) ++ " kB".toList))
        else if index.column = 3 then Except.ok (dataCase3 image)
        else if index.column = 4 then Except.ok (dataCase4 image)
        else if index.column = 5 then Except.ok (dataCase5 image)
        else Except.ok QVariant.invalid
      else if role = TextAlignmentRole then
        if index.column = 4 then Except.ok (QVariant.alignment AlignRight)
        else Except.ok (QVariant.alignment AlignLeft)
      else Except.ok QVariant.invalid

/-- Counterpart of `beginResetModel`. -/
def beginResetModel (s : ImageList) : ImageList :=
  { s with log := s.log ++ [Event.modelAboutToBeReset] }

/-- Counterpart of `endResetModel`: `modelReset` is emitted and the selection
model, connected to it, resets itself. -/
def endResetModel (s : ImageList) : ImageList :=
  { s with
    selection := s.selection.reset s.rowCount columnCount,
    log := s.log ++ [Event.modelReset] }

/-- Body of the range-`for` in `ImageList::clear`, run `n` times from the slot
`it`: the iterator is a pointer into the block, it advances by one slot per
pass, and the end iterator is the one taken on entry. -/
def clearLoop : Nat → Nat → ImageList → ImageList
  | 0, _, s => s
  | n + 1, it, s =>
    let img := s.p.array.getD it 0
    let s := s.delete img
    let s := { s with p := s.p.removeOne img }
    clearLoop n (it + 1) s

/-- Counterpart of `ImageList::clear`. -/
def clear (s : ImageList) : ImageList :=
  let s := s.beginResetModel
  let s := clearLoop (s.p.end_ - s.p.begin) s.p.begin s
  s.endResetModel

/-- Counterpart of `ImageList::getSelected`: `at(row)` for each selected row. -/
def getSelected (s : ImageList) : List (Option Nat) :=
  (s.selection.selectedRows columnCount).map (fun row => s.p.«at» row)

/-- Counterpart of `ImageList::getCurrent`. -/
def getCurrent (s : ImageList) : Nat × ImageList :=
  let s :=
    if !s.selection.currentIndex.isValid then
      let r := s.selection.select s.rowCount columnCount
        (QItemSelection.ofIndex (createIndex 0 0)) SelectionFlags.Current
      { s with selection := r.1, log := s.log ++ r.2 }
    else s
  (s.p.value s.selection.currentIndex.row, s)

/-- The slot connected to `currentChanged` in the constructor:
`emit newImage(at(current.row()))`. -/
def onCurrentChanged (s : ImageList) (current : QModelIndex) : Except Fault Event :=
  match s.p.«at» current.row with
  | some img => Except.ok (Event.newImage img)
  | none => Except.error Fault.outOfRange

/-- Delivery of the selection model's signals: each `currentChanged` is followed
by what the connected slot emits. -/
def deliver (s : ImageList) : List Event → Except Fault (List Event)
  | [] => Except.ok []
  | Event.currentChanged current previous :: es =>
    match s.onCurrentChanged current, deliver s es with
    | Except.ok e, Except.ok rest =>
      Except.ok (Event.currentChanged current previous :: e :: rest)
    | Except.error f, _ => Except.error f
    | _, Except.error f => Except.error f
  | e :: es =>
    match deliver s es with
    | Except.ok rest => Except.ok (e :: rest)
    | Except.error f => Except.error f

/-- The call `selection.setCurrentIndex(newIdx, QItemSelectionModel::Current)`
made by `nextImage` and `prevImage` when `newIdx` is valid. -/
def moveTo (s : ImageList) (newIdx : QModelIndex) : Except Fault ImageList :=
  if newIdx.isValid then
    let r := s.selection.setCurrentIndex s.rowCount columnCount newIdx SelectionFlags.Current
    match deliver s r.2 with
    | Except.ok events => Except.ok { s with selection := r.1, log := s.log ++ events }
    | Except.error f => Except.error f
  else Except.ok s

/-- Counterpart of `ImageList::nextImage`. -/
def nextImage (s : ImageList) : Except Fault ImageList :=
  let oldIdx := s.selection.currentIndex
  let newIdx := s.index (oldIdx.row - 1) oldIdx.column
  s.moveTo newIdx

/-- Counterpart of `ImageList::prevImage`. -/
def prevImage (s : ImageList) : Except Fault ImageList :=
  let oldIdx := s.selection.currentIndex
  let newIdx := s.index (oldIdx.row + 1) oldIdx.column
  s.moveTo newIdx

/-- Counterpart of `ImageList::add`. -/
def add (s : ImageList) (img : Nat) : ImageList :=
  let n : Int := s.p.size
  let s := { s with log := s.log ++ [Event.rowsAboutToBeInserted n n] }
  let s := { s with p := s.p.append img }
  { s with selection := s.selection.rowsInserted n 1, log := s.log ++ [Event.rowsInserted n n] }

/-- The allow-list `valid` of `ImageList::load`. -/
def valid : List QString := ["png".toList, "jpg".toList, "png".toList]

/-- The test guarding `add` in `ImageList::load`. -/
def accepts (env : Env) (file : QString) : Bool :=
  QFileInfo.exists env.fs file && QFileInfo.isFile env.fs file &&
    valid.contains (QFileInfo.suffix file).toLower

/-- Counterpart of `ImageList::load`. -/
def load (env : Env) (s : ImageList) (files : List QString) : ImageList :=
  files.foldl (fun s file =>
    if accepts env file then
      let r := allocate env s file
      r.2.add r.1
    else s) s

/-- Counterpart of `ImageList::save`. -/
def save (env : Env) (s : ImageList) (path : QString) : Except Fault ImageList :=
  let r := s.getCurrent
  let img := r.1
  let s := r.2
  match s.deref img with
  | Except.error f => Except.error f
  | Except.ok image =>
    let qimg := env.getQImage image
    let s := { s with log := s.log ++ [Event.painterSetRatio qimg.width] }
    let s := { s with log := s.log ++ [Event.painterDrawOverlay img] }
    Except.ok { s with log := s.log ++ [Event.imageSaved path] }

/-- The two signals `add` emits for a row inserted at position `n`. -/
def insertSignals (n : Nat) : List Event :=
  [Event.rowsAboutToBeInserted n n, Event.rowsInserted n n]

end ImageList

/-! ## Concrete inputs -/

/-- A file system with four entries: three regular files and a directory. -/
def demoFs : FileSystem := fun path =>
  if path = "a.png".toList then some { isFile := true, size := 2048 }
  else if path = "pics/c.JPG".toList then some { isFile := true, size := 128 }
  else if path = "b.bmp".toList then some { isFile := true, size := 4096 }
  else if path = "d.jpg".toList then some { isFile := false, size := 0 }
  else none

/-- An environment over `demoFs` in which a new image is not yet decoded. -/
def demoEnv : Env :=
  { fs := demoFs,
    construct := fun _ => (false, { channels := 0, cols := 0, rows := 0 }),
    getQImage := fun image => { width := image.sourceMat.cols },
    tiesAway := true }

/-- Paths handed to `load`: two that qualify, and four that do not. -/
def demoFiles : List QString :=
  ["a.png".toList, "a.txt".toList, "missing.jpg".toList, "d.jpg".toList, "pics/c.JPG".toList,
    "b.bmp".toList]

/-- The list after `load(demoFiles)`: two entries, no current index. -/
def demoList : ImageList := ImageList.load demoEnv ImageList.init demoFiles

/-- The list `demoList` with the current index on row `row`, column `0`. -/
def demoListAt (row : Int) : ImageList :=
  { demoList with
    selection := { demoList.selection with currentIndex := ImageList.createIndex row 0 } }

/-- A list with the single entry `a.png`, which is the current one. -/
def singleList : ImageList :=
  let s := ImageList.load demoEnv ImageList.init ["a.png".toList]
  { s with selection := { s.selection with currentIndex := ImageList.createIndex 0 0 } }

/-- A file system holding one regular file of `2^60 + 100` bytes. -/
def hugeFs : FileSystem := fun path =>
  if path = "huge.png".toList then some { isFile := true, size := 2 ^ 60 + 100 } else none

/-- An environment over `hugeFs`. -/
def hugeEnv : Env :=
  { fs := hugeFs,
    construct := fun _ => (false, { channels := 0, cols := 0, rows := 0 }),
    getQImage := fun image => { width := image.sourceMat.cols },
    tiesAway := true }

/-- The list after `load` of the one file of `hugeFs`. -/
def hugeList : ImageList := ImageList.load hugeEnv ImageList.init ["huge.png".toList]

/-! ## Lemmas on the list storage -/

namespace QListData

/-- Writing slot `e` and keeping the first `e + 1` slots gives the first `e` slots
followed by the value written. -/
theorem take_set_succ (l : List Nat) (e : Nat) (t : Nat) (h : e < l.length) :
    (l.set e t).take (e + 1) = l.take e ++ [t] := by
  rw [List.set_eq_take_append_cons_drop, if_pos h]
  have hl : (List.take e l).length = e := by simp; omega
  rw [List.take_append_eq_append_take, hl]
  simp [List.take_of_length_le, hl]

/-- On a well-formed block `size` is the number of elements. -/
theorem size_eq_length (d : QListData) (h : d.WF) : d.size = d.toList.length := by
  obtain ⟨h1, h2⟩ := h
  simp [size, toList]
  omega

/-- `append` keeps the block well formed and adds the element at the end, in each
of its three branches. -/
theorem toList_append (d : QListData) (t : Nat) (h : d.WF) :
    (d.append t).WF ∧ (d.append t).toList = d.toList ++ [t] := by
  obtain ⟨h1, h2⟩ := h
  unfold append
  simp only []
  split_ifs with hfull hmove
  · -- the elements are moved to the front
    have he : d.end_ = d.array.length := by omega
    have hm : memmove d.array 0 d.begin (d.end_ - d.begin)
        = d.array.drop d.begin ++ d.array.drop (d.end_ - d.begin) := by
      simp [memmove, he, List.take_of_length_le]
    have hlen : (d.array.drop d.begin).length = d.end_ - d.begin := by simp [he]
    have hlt : d.end_ - d.begin
        < (d.array.drop d.begin ++ d.array.drop (d.end_ - d.begin)).length := by
      simp; omega
    refine ⟨⟨by simp, ?_⟩, ?_⟩
    · simp [hm]; omega
    · simp only [toList, hm, List.drop_zero]
      rw [take_set_succ _ _ _ hlt, List.take_append_of_le_length (by omega),
        List.take_of_length_le (by omega), List.take_of_length_le (by omega)]
  · -- the block is reallocated
    have he : d.end_ = d.array.length := by omega
    refine ⟨⟨by simp; omega, by simp; omega⟩, ?_⟩
    simp only [toList]
    rw [take_set_succ _ _ _ (by simp; omega), List.take_append_of_le_length (by omega),
      List.drop_append_of_le_length (by simp; omega)]
  · have hlt : d.end_ < d.array.length := by omega
    refine ⟨⟨by simp; omega, by simp; omega⟩, ?_⟩
    simp only [toList]
    rw [take_set_succ _ _ _ hlt, List.drop_append_of_le_length (by simp; omega)]

end QListData

/-! ## Lemmas on `load` -/

namespace ImageList

/-- Effect of `add(new Image(file))` on a well-formed list. -/
theorem add_allocate (env : Env) (s : ImageList) (file : QString) (h : s.p.WF) :
    ((allocate env s file).2.add (allocate env s file).1).p.WF
    ∧ ((allocate env s file).2.add (allocate env s file).1).entries = s.entries ++ [s.top + 1]
    ∧ ((allocate env s file).2.add (allocate env s file).1).heap
        = (s.top + 1, Image.new env file) :: s.heap
    ∧ ((allocate env s file).2.add (allocate env s file).1).top = s.top + 1
    ∧ ((allocate env s file).2.add (allocate env s file).1).log
        = s.log ++ insertSignals s.entries.length := by
  have ha := QListData.toList_append s.p (s.top + 1) h
  have hs := QListData.size_eq_length s.p h
  refine ⟨ha.1, ha.2, rfl, rfl, ?_⟩
  simp [add, allocate, insertSignals, entries, hs]

/-- `load` of no path is the identity. -/
theorem load_nil (env : Env) (s : ImageList) : load env s [] = s := rfl

/-- `load` handles the first path, then the others. -/
theorem load_cons (env : Env) (s : ImageList) (file : QString) (files : List QString) :
    load env s (file :: files)
      = load env (if accepts env file then (allocate env s file).2.add (allocate env s file).1 else s)
          files := rfl

/-- What `load` does to the storage, the addresses, the free store and the log. -/
theorem load_invariant (env : Env) (files : List QString) :
    ∀ s : ImageList, s.p.WF →
      (load env s files).p.WF
      ∧ (load env s files).entries
          = s.entries ++ List.range' (s.top + 1) (files.filter (accepts env)).length
      ∧ (load env s files).top = s.top + (files.filter (accepts env)).length
      ∧ (∀ a, a ≤ s.top → (load env s files).heap.lookup a = s.heap.lookup a)
      ∧ (List.range' (s.top + 1) (files.filter (accepts env)).length).map
            (fun a => (load env s files).heap.lookup a)
          = (files.filter (accepts env)).map (fun f => some (Image.new env f))
      ∧ (load env s files).log
          = s.log ++ (List.range (files.filter (accepts env)).length).flatMap
              (fun k => insertSignals (s.entries.length + k)) := by
  induction files with
  | nil => intro s h; simp [load_nil, h]
  | cons file files ih =>
    intro s h
    rw [load_cons]
    by_cases hacc : accepts env file
    · obtain ⟨a1, a2, a3, a4, a5⟩ := add_allocate env s file h
      obtain ⟨i1, i2, i3, i4, i5, i6⟩ := ih _ a1
      simp only [if_pos hacc, List.filter_cons_of_pos hacc, List.length_cons] at *
      rw [a4] at i2 i3 i4 i5
      refine ⟨i1, ?_, ?_, ?_, ?_, ?_⟩
      · rw [i2, a2, List.range'_succ]; simp
      · rw [i3]; omega
      · intro a ha
        rw [i4 a (by omega), a3, List.lookup_cons]
        have : (a == s.top + 1) = false := by simp; omega
        rw [this]
      · rw [List.range'_succ, List.map_cons, List.map_cons, i5, i4 (s.top + 1) (le_refl _), a3]
        simp
      · rw [i6, a5, a2, List.range_succ_eq_map, List.flatMap_cons, List.flatMap_map]
        simp [Function.comp, Nat.add_assoc, Nat.add_comm 1]
    · simp only [if_neg hacc, List.filter_cons_of_neg hacc]
      exact ih s h

end ImageList

/-! ## Lemmas on the selection model and on `clear` -/

namespace QItemSelectionModel

/-- No `selectionChanged` when the selection is what it was. -/
theorem emitSelectionChanged_self (sel : QItemSelection) : emitSelectionChanged sel sel = [] := by
  have h : sel.filter (fun c => !sel.contains c) = [] := by
    rw [List.filter_eq_nil_iff]
    intro c hc
    simp [hc]
  simp [emitSelectionChanged, h]

/-- `select` with the flag `Current` alone changes nothing and emits nothing. -/
theorem select_Current (m : QItemSelectionModel) (rowCount columnCount : Nat)
    (sel : QItemSelection) :
    select m rowCount columnCount sel SelectionFlags.Current = (m, []) := by
  simp [select, SelectionFlags.Current, SelectionFlags.NoUpdate, emitSelectionChanged_self]

/-- After `reset` both selections are empty and the current index is invalid. -/
theorem reset_eq (m : QItemSelectionModel) (rowCount columnCount : Nat) :
    (reset m rowCount columnCount).ranges = []
    ∧ (reset m rowCount columnCount).currentSelection = []
    ∧ (reset m rowCount columnCount).currentIndex = QModelIndex.invalid := by
  unfold reset
  by_cases h : (m.ranges.isEmpty && m.currentSelection.isEmpty) = true
  · simp only [h, if_true]
    simp only [Bool.and_eq_true, List.isEmpty_iff] at h
    simp [h.1, h.2]
  · simp only [h]
    simp [select, SelectionFlags.Clear, SelectionFlags.NoUpdate, finalize, QItemSelection.merge]

end QItemSelectionModel

namespace ImageList

/-- The loop of `clear`, started with the iterator on `begin`: each pass finds the
element under the iterator at index `0`, so `removeOne` only advances `begin`;
after `end - begin` passes the list is empty and every entry is deleted. -/
theorem clearLoop_spec : ∀ (n it : Nat) (s : ImageList),
    s.p.begin = it → s.p.begin + n = s.p.end_ → s.p.end_ ≤ s.p.array.length →
      (clearLoop n it s).p = { s.p with begin := s.p.end_ }
      ∧ (clearLoop n it s).selection = s.selection
      ∧ (clearLoop n it s).log = s.log
      ∧ (clearLoop n it s).top = s.top
      ∧ (clearLoop n it s).heap = s.heap.filter (fun b => !s.entries.contains b.1) := by
  intro n
  induction n with
  | zero =>
    intro it s _ h2 _
    have : s.entries = [] := by simp [entries, QListData.toList]; omega
    refine ⟨?_, rfl, rfl, rfl, ?_⟩
    · simp only [clearLoop]
      cases hp : s.p
      simp [hp] at h2
      simp [h2]
    · simp [clearLoop, this]
  | succ n ih =>
    intro it s h1 h2 h3
    subst h1
    have hlt : s.p.begin < s.p.array.length := by omega
    -- the slot under the iterator is the first element
    have hdrop : s.p.toList = s.p.array[s.p.begin] :: (List.take s.p.end_ s.p.array).drop (s.p.begin + 1) := by
      unfold QListData.toList
      rw [List.drop_eq_getElem_cons (by simp; omega)]
      simp [List.getElem_take]
    have himg : s.p.array.getD s.p.begin 0 = s.p.array[s.p.begin] := by
      simp [List.getD_eq_getElem?_getD, List.getElem?_eq_getElem hlt]
    have hidx : s.p.indexOf (s.p.array[s.p.begin]) = some 0 := by
      simp [QListData.indexOf, hdrop, List.indexOf?_cons]
    have hrem : s.p.removeOne (s.p.array[s.p.begin]) = { s.p with begin := s.p.begin + 1 } := by
      simp only [QListData.removeOne, hidx, QListData.size, QListData.remove]
      have : 0 < s.p.end_ - s.p.begin := by omega
      simp [this]
    have hstep : clearLoop (n + 1) s.p.begin s
        = clearLoop n (s.p.begin + 1)
            { p := { array := s.p.array, begin := s.p.begin + 1, end_ := s.p.end_ },
              selection := s.selection,
              heap := s.heap.filter (fun b => b.1 != s.p.array[s.p.begin]),
              top := s.top, log := s.log } := by
      simp only [clearLoop, himg, delete, hrem]
    rw [hstep]
    obtain ⟨i1, i2, i3, i4, i5⟩ := ih (s.p.begin + 1)
      { p := { array := s.p.array, begin := s.p.begin + 1, end_ := s.p.end_ },
        selection := s.selection,
        heap := s.heap.filter (fun b => b.1 != s.p.array[s.p.begin]),
        top := s.top, log := s.log }
      rfl (by simp only []; omega) h3
    refine ⟨i1, i2, i3, i4, ?_⟩
    rw [i5]
    simp only [entries, List.filter_filter]
    rw [hdrop]
    apply List.filter_congr
    intro b _
    by_cases hb : b.1 = s.p.array[s.p.begin] <;> simp [hb, bne, QListData.toList]

end ImageList

/-! ## Lemmas on navigation -/

namespace QListData

/-- On a well-formed block `at(k)` is the `k`-th element. -/
theorem at_eq_getElem (d : QListData) (h : d.WF) (k : Nat) (hk : k < d.size) :
    d.«at» (k : Int) = d.toList.get? k := by
  obtain ⟨h1, h2⟩ := h
  have hk2 : k < d.end_ - d.begin := hk
  have hc : (0 : Int) ≤ (k : Int) ∧ (k : Int) < (d.size : Int) := ⟨by omega, by exact_mod_cast hk⟩
  simp only [«at», hc, and_self, if_true, toList, Int.toNat_ofNat, List.get?_eq_getElem?,
    List.getElem?_drop]
  rw [List.getElem?_take_of_lt (by omega)]

/-- On an empty list `value` is the null pointer for every index. -/
theorem value_of_size_zero (d : QListData) (h : d.size = 0) (i : Int) : d.value i = 0 := by
  unfold value
  rw [h]
  have : i < 0 ∨ i ≥ ((0 : Nat) : Int) := by omega
  simp [this]

end QListData

namespace QItemSelectionModel

/-- `setCurrentIndex(idx, Current)` for an index other than the current one: the
current index is replaced, the selection is kept, and the change is signalled. -/
theorem setCurrentIndex_Current (m : QItemSelectionModel) (rowCount columnCount : Nat)
    (idx : QModelIndex) (hne : idx ≠ m.currentIndex) :
    setCurrentIndex m rowCount columnCount idx SelectionFlags.Current
      = ({ m with currentIndex := idx },
          [Event.currentChanged idx m.currentIndex]
            ++ (if idx.row ≠ m.currentIndex.row then [Event.currentRowChanged idx m.currentIndex]
                else [])
            ++ (if idx.column ≠ m.currentIndex.column then
                  [Event.currentColumnChanged idx m.currentIndex] else [])) := by
  have hc : SelectionFlags.Current ≠ SelectionFlags.NoUpdate := by decide
  unfold setCurrentIndex
  rw [if_neg hne]
  simp only [select_Current, if_pos hc, List.nil_append]

end QItemSelectionModel

namespace ImageList

/-- An invalid target index leaves the state as it is. -/
theorem moveTo_invalid (s : ImageList) (idx : QModelIndex) (h : idx.isValid = false) :
    s.moveTo idx = Except.ok s := by
  simp [moveTo, h]

/-- `index(row, c)` is `createIndex(row, c)` inside the table. -/
theorem index_of_lt (s : ImageList) (row : Nat) (c : Int) (hr : row < s.count) (hc0 : 0 ≤ c)
    (hc : c < 6) : s.index (row : Int) c = createIndex row c := by
  have h1 : ¬ ((row : Int) < 0 ∨ c < 0) := by omega
  have h2 : (row : Int) < (s.rowCount : Int) := by exact_mod_cast hr
  have h3 : c < (columnCount : Int) := by simpa [columnCount] using hc
  simp [index, hasIndex, h1, h2, h3]

/-- Moving the current index to another row of the table, same column. -/
theorem moveTo_row (s : ImageList) (hwf : s.p.WF) (old : QModelIndex) (row : Nat) (c : Int)
    (hcur : s.selection.currentIndex = old) (hc0 : 0 ≤ c) (hcol : old.column = c)
    (hrow : old.row ≠ (row : Int)) (hr : row < s.count) :
    ∃ img, s.entries.get? row = some img ∧
      s.moveTo (createIndex row c)
        = Except.ok { s with
            selection := { s.selection with currentIndex := createIndex row c },
            log := s.log ++ [Event.currentChanged (createIndex row c) old, Event.newImage img,
              Event.currentRowChanged (createIndex row c) old] } := by
  have hat := QListData.at_eq_getElem s.p hwf row hr
  have hlen : row < s.p.toList.length := by rw [← QListData.size_eq_length s.p hwf]; exact hr
  refine ⟨s.p.toList[row], by simp [entries, List.getElem?_eq_getElem hlen], ?_⟩
  have hv : (createIndex row c).isValid = true := by simp [createIndex, QModelIndex.isValid, hc0]
  have hne : createIndex row c ≠ s.selection.currentIndex := by
    rw [hcur]; intro h; apply hrow; rw [← h]; rfl
  have hrow2 : (createIndex row c).row ≠ old.row := fun h => hrow (by rw [← h]; rfl)
  have hcol2 : (createIndex row c).column = old.column := by rw [hcol]; rfl
  have hat2 : s.p.«at» (createIndex row c).row = some s.p.toList[row] := by
    show s.p.«at» (row : Int) = _
    rw [hat]; simp [List.getElem?_eq_getElem hlen]
  unfold moveTo
  rw [if_pos hv, QItemSelectionModel.setCurrentIndex_Current _ _ _ _ hne, hcur]
  simp [hrow2, hcol2, deliver, onCurrentChanged, hat2]

end ImageList

/-! ## The claims -/

namespace ImageList

/-- The storage of a freshly constructed list is well formed. -/
theorem init_WF : ImageList.init.p.WF := by decide

/-- `load` keeps the storage well formed. -/
theorem load_WF (env : Env) (s : ImageList) (files : List QString) (h : s.p.WF) :
    (load env s files).p.WF :=
  (load_invariant env files s h).1

/-- `clear` keeps the storage well formed. -/
theorem clear_WF (s : ImageList) (h : s.p.WF) : (clear s).p.WF := by
  obtain ⟨h1, h2⟩ := h
  have hp : (clear s).p = { s.p with begin := s.p.end_ } :=
    (clearLoop_spec (s.p.end_ - s.p.begin) s.p.begin s.beginResetModel rfl
      (by show s.p.begin + (s.p.end_ - s.p.begin) = s.p.end_; omega) h2).1
  rw [hp]
  exact ⟨le_refl _, h2⟩

/-- Reading through a non-null address is a lookup in the free store. -/
theorem deref_of_lookup (s : ImageList) (a : Nat) (ha : a ≠ 0) :
    s.deref a = match s.heap.lookup a with
      | some image => Except.ok image
      | none => Except.error Fault.danglingPointer := by
  simp [deref, ha]

/-- An address among `es` is not found once the bindings of `es` are filtered out. -/
theorem lookup_filter_entries (l : List (Nat × Image)) (es : List Nat) (a : Nat) (ha : a ∈ es) :
    (l.filter (fun b => !es.contains b.1)).lookup a = none := by
  induction l with
  | nil => rfl
  | cons b l ih =>
    rw [List.filter_cons]
    by_cases hin : es.contains b.1 = true
    · simp only [hin, Bool.not_true]
      exact ih
    · have hne : (a == b.1) = false := by
        rw [beq_eq_false_iff_ne]
        intro h
        apply hin
        rw [← h]
        simpa using ha
      cases b with
      | mk k v =>
        simp only [hin, Bool.not_false, if_true, List.lookup_cons]
        simp only [] at hne
        rw [hne]
        exact ih

/-- C1: `ImageList::load` appends, after the entries already present and in the
order of the input, one freshly allocated entry for each path that exists, is
a regular file and has an allow-listed suffix (compared in lower case); each
new entry is an image constructed from that path, the images of the older
addresses are untouched, every other path is skipped, each appended entry at
row `n + k` emits `rowsAboutToBeInserted(n + k)` and one `rowsInserted(n + k)`,
and `load` of the empty list changes nothing. -/
theorem load_appends_accepted (env : Env) (s : ImageList) (files : List QString) (h : s.p.WF) :
    (load env s files).entries
        = s.entries ++ List.range' (s.top + 1) (files.filter (accepts env)).length
    ∧ (List.range' (s.top + 1) (files.filter (accepts env)).length).map (load env s files).deref
        = (files.filter (accepts env)).map (fun file => Except.ok (Image.new env file))
    ∧ (∀ a, a ≤ s.top → (load env s files).deref a = s.deref a)
    ∧ (load env s files).log
        = s.log ++ (List.range (files.filter (accepts env)).length).flatMap
            (fun k => [Event.rowsAboutToBeInserted (s.entries.length + k) (s.entries.length + k),
              Event.rowsInserted (s.entries.length + k) (s.entries.length + k)])
    ∧ load env s [] = s := by
  obtain ⟨_, i2, _, i4, i5, i6⟩ := load_invariant env files s h
  refine ⟨i2, ?_, ?_, ?_, rfl⟩
  · have hmap : (List.range' (s.top + 1) (files.filter (accepts env)).length).map
          (load env s files).deref
        = ((List.range' (s.top + 1) (files.filter (accepts env)).length).map
            (fun a => (load env s files).heap.lookup a)).map
            (fun o => match o with
              | some image => Except.ok image
              | none => Except.error Fault.danglingPointer) := by
      rw [List.map_map]
      apply List.map_congr_left
      intro a ha
      have : a ≠ 0 := by
        have := (List.mem_range'_1.mp ha).1
        omega
      simp [deref_of_lookup _ a this]
    rw [hmap, i5, List.map_map]
    rfl
  · intro a ha
    unfold deref
    rw [i4 a ha]
  · rw [i6]
    simp [insertSignals]

/-- C1 at a concrete input: `load(demoFiles)` on the empty list appends the two
qualifying paths, in order, and emits two pairs of insert signals. -/
theorem load_appends_accepted_witness :
    ImageList.init.p.WF
    ∧ (load demoEnv ImageList.init demoFiles).entries = [1, 2]
    ∧ [1, 2].map (load demoEnv ImageList.init demoFiles).deref
        = ["a.png".toList, "pics/c.JPG".toList].map (fun file => Except.ok (Image.new demoEnv file))
    ∧ (load demoEnv ImageList.init demoFiles).log
        = [Event.rowsAboutToBeInserted 0 0, Event.rowsInserted 0 0,
            Event.rowsAboutToBeInserted 1 1, Event.rowsInserted 1 1] := by
  have h := load_appends_accepted demoEnv ImageList.init demoFiles (by decide)
  have hf : demoFiles.filter (accepts demoEnv) = ["a.png".toList, "pics/c.JPG".toList] := by decide
  rw [hf] at h
  exact ⟨by decide, h.1, h.2.1, h.2.2.2.1⟩

/-- C2: after `ImageList::clear` the list has no entries, the current index is
invalid, the selection is empty (so `getSelected` returns nothing), every
former entry has been deleted, and the signals emitted are
`modelAboutToBeReset` followed by exactly one `modelReset`. -/
theorem clear_empties (s : ImageList) (h : s.p.WF) :
    (clear s).entries = []
    ∧ (clear s).count = 0
    ∧ (clear s).selection.currentIndex = QModelIndex.invalid
    ∧ (clear s).selection.selection = []
    ∧ (clear s).getSelected = []
    ∧ (clear s).log = s.log ++ [Event.modelAboutToBeReset, Event.modelReset]
    ∧ (∀ a ∈ s.entries, (clear s).heap.lookup a = none) := by
  obtain ⟨h1, h2⟩ := h
  obtain ⟨c1, c2, c3, c4, c5⟩ := clearLoop_spec (s.p.end_ - s.p.begin) s.p.begin s.beginResetModel
    rfl (by show s.p.begin + (s.p.end_ - s.p.begin) = s.p.end_; omega) h2
  obtain ⟨r1, r2, r3⟩ := QItemSelectionModel.reset_eq
    (clearLoop (s.p.end_ - s.p.begin) s.p.begin s.beginResetModel).selection
    (clearLoop (s.p.end_ - s.p.begin) s.p.begin s.beginResetModel).rowCount columnCount
  have hp : (clear s).p = { s.p with begin := s.p.end_ } := c1
  have hsel : (clear s).selection = QItemSelectionModel.reset
      (clearLoop (s.p.end_ - s.p.begin) s.p.begin s.beginResetModel).selection
      (clearLoop (s.p.end_ - s.p.begin) s.p.begin s.beginResetModel).rowCount columnCount := rfl
  have hempty : (clear s).selection.selection = [] := by
    rw [hsel]; simp [QItemSelectionModel.selection, r1, r2, QItemSelection.merge]
  refine ⟨?_, ?_, ?_, hempty, ?_, ?_, ?_⟩
  · simp [entries, hp, QListData.toList]
  · simp [count, hp, QListData.size]
  · rw [hsel, r3]
  · simp [getSelected, QItemSelectionModel.selectedRows, hempty, List.eraseDups, List.eraseDups.loop]
  · show (clearLoop (s.p.end_ - s.p.begin) s.p.begin s.beginResetModel).log ++ [Event.modelReset] = _
    rw [c3]; simp [beginResetModel]
  · intro a ha
    show List.lookup a (clearLoop (s.p.end_ - s.p.begin) s.p.begin s.beginResetModel).heap = none
    rw [c5]
    have hent : s.beginResetModel.entries = s.entries := rfl
    have hheap : s.beginResetModel.heap = s.heap := rfl
    rw [hent, hheap]
    exact lookup_filter_entries s.heap s.entries a ha

/-- C2 at a concrete input: `clear` on the two-entry list. -/
theorem clear_empties_witness :
    demoList.p.WF
    ∧ demoList.entries = [1, 2]
    ∧ (clear demoList).entries = []
    ∧ (clear demoList).count = 0
    ∧ (clear demoList).log = demoList.log ++ [Event.modelAboutToBeReset, Event.modelReset] := by
  have h := clear_empties demoList (by decide)
  exact ⟨by decide, by decide, h.1, h.2.1, h.2.2.2.2.2.1⟩


/-- Whenever the current index is invalid, `getCurrent` changes nothing, and it
returns `value(row)` of that invalid index. -/
theorem getCurrent_of_invalid (s : ImageList) (h : s.selection.currentIndex.isValid = false) :
    getCurrent s = (s.p.value s.selection.currentIndex.row, s) := by
  simp [getCurrent, h, QItemSelectionModel.select_Current]

/-- C3, evaluated on the code: on the two-entry list `demoList`, which has no
current index, `getCurrent` returns the null pointer and leaves the list as it
was, the current index still invalid; entry `0` (address `1`) is not returned
and row `0` does not become current. -/
theorem getCurrent_does_not_default :
    demoList.entries = [1, 2]
    ∧ demoList.selection.currentIndex = QModelIndex.invalid
    ∧ getCurrent demoList = (0, demoList)
    ∧ (getCurrent demoList).2.selection.currentIndex.isValid = false := by
  decide

/-- C4: on an empty list `getCurrent` returns the null pointer and the whole
state (current index, selection, entries, log) is what it was before. -/
theorem getCurrent_empty (s : ImageList) (h : s.count = 0) : getCurrent s = (0, s) := by
  by_cases hv : s.selection.currentIndex.isValid = true
  · simp [getCurrent, hv, QListData.value_of_size_zero s.p h]
  · have hv2 : s.selection.currentIndex.isValid = false := by simpa using hv
    rw [getCurrent_of_invalid s hv2, QListData.value_of_size_zero s.p h]

/-- C4 at a concrete input: `getCurrent` on the freshly constructed list. -/
theorem getCurrent_empty_witness :
    ImageList.init.count = 0 ∧ getCurrent ImageList.init = (0, ImageList.init) :=
  ⟨by decide, getCurrent_empty ImageList.init (by decide)⟩

/-- Without a current index `save` reads through the null pointer, whatever
the entries are. -/
theorem save_of_invalid (env : Env) (s : ImageList) (path : QString)
    (h : s.selection.currentIndex = QModelIndex.invalid) :
    save env s path = Except.error Fault.nullDereference := by
  have hv : s.selection.currentIndex.isValid = false := by rw [h]; rfl
  have hval : s.p.value s.selection.currentIndex.row = 0 := by
    rw [h]
    simp [QListData.value, QModelIndex.invalid]
  unfold save
  rw [getCurrent_of_invalid s hv, hval]
  simp [deref]

/-- C5, evaluated on the code: `save` on the empty list, and on the two-entry
list `demoList` without a current index, reads through the null pointer that
`getCurrent` returned; no error value such as `NoCurrentImage` is produced. -/
theorem save_without_current_faults :
    save demoEnv ImageList.init "out.png".toList = Except.error Fault.nullDereference
    ∧ save demoEnv demoList "out.png".toList = Except.error Fault.nullDereference := by
  decide

/-- C6: on a list of at least one entry, `nextImage` with the current index on
row `0` and `prevImage` with the current index on the last row return the
state they were given: entries, current index, selection and log unchanged. -/
theorem boundary_is_noop (s : ImageList) (hn : 1 ≤ s.count) :
    (s.selection.currentIndex.row = 0 → nextImage s = Except.ok s)
    ∧ (s.selection.currentIndex.row = ((s.count - 1 : Nat) : Int) → prevImage s = Except.ok s) := by
  constructor
  · intro h0
    apply moveTo_invalid
    simp [index, hasIndex, h0, QModelIndex.invalid, QModelIndex.isValid]
  · intro hlast
    apply moveTo_invalid
    have hh : s.hasIndex (s.selection.currentIndex.row + 1) s.selection.currentIndex.column
        = false := by
      have hrow : ((s.count - 1 : Nat) : Int) + 1 = (s.count : Int) := by omega
      unfold hasIndex
      rw [hlast, hrow]
      split_ifs
      · rfl
      · simp [rowCount]
    simp only [index, hh]
    rfl

/-- C6 at a concrete input: on a one-entry list row `0` is both boundaries. -/
theorem boundary_is_noop_witness :
    1 ≤ singleList.count
    ∧ nextImage singleList = Except.ok singleList
    ∧ prevImage singleList = Except.ok singleList :=
  ⟨by decide, (boundary_is_noop singleList (by decide)).1 (by decide),
    (boundary_is_noop singleList (by decide)).2 (by decide)⟩

/-- C7: with the current index on row `i`, column `c` of the table: if
`1 ≤ i`, `nextImage` makes row `i - 1` current, and if `i + 1 < n`,
`prevImage` makes row `i + 1` current; in both cases only the current index
and the log change, and the log gains `currentChanged`, the one `newImage`
carrying the entry at the new row, and `currentRowChanged`. -/
theorem step_moves_current (s : ImageList) (i : Nat) (c : Int) (hwf : s.p.WF)
    (hcur : s.selection.currentIndex = createIndex i c) (hi : i < s.count)
    (hc0 : 0 ≤ c) (hc : c < 6) :
    (1 ≤ i → ∃ img, s.entries.get? (i - 1) = some img ∧
      nextImage s = Except.ok { s with
        selection := { s.selection with currentIndex := createIndex ((i - 1 : Nat) : Int) c },
        log := s.log ++ [Event.currentChanged (createIndex ((i - 1 : Nat) : Int) c) (createIndex i c),
          Event.newImage img,
          Event.currentRowChanged (createIndex ((i - 1 : Nat) : Int) c) (createIndex i c)] })
    ∧ (i + 1 < s.count → ∃ img, s.entries.get? (i + 1) = some img ∧
      prevImage s = Except.ok { s with
        selection := { s.selection with currentIndex := createIndex ((i + 1 : Nat) : Int) c },
        log := s.log ++ [Event.currentChanged (createIndex ((i + 1 : Nat) : Int) c) (createIndex i c),
          Event.newImage img,
          Event.currentRowChanged (createIndex ((i + 1 : Nat) : Int) c) (createIndex i c)] }) := by
  constructor
  · intro h1
    have hidx : s.index ((createIndex i c).row - 1) (createIndex i c).column
        = createIndex ((i - 1 : Nat) : Int) c := by
      have : (createIndex i c).row - 1 = ((i - 1 : Nat) : Int) := by
        show (i : Int) - 1 = _
        omega
      rw [this]
      exact index_of_lt s (i - 1) c (by omega) hc0 hc
    unfold nextImage
    simp only [hcur, hidx]
    exact moveTo_row s hwf (createIndex i c) (i - 1) c hcur hc0 rfl
      (by show (i : Int) ≠ _; omega) (by omega)
  · intro h1
    have hidx : s.index ((createIndex i c).row + 1) (createIndex i c).column
        = createIndex ((i + 1 : Nat) : Int) c := by
      have : (createIndex i c).row + 1 = ((i + 1 : Nat) : Int) := by
        show (i : Int) + 1 = _
        omega
      rw [this]
      exact index_of_lt s (i + 1) c h1 hc0 hc
    unfold prevImage
    simp only [hcur, hidx]
    exact moveTo_row s hwf (createIndex i c) (i + 1) c hcur hc0 rfl
      (by show (i : Int) ≠ _; omega) h1


/-- C7 at concrete inputs: on the two-entry list, `nextImage` from row `1`
reaches row `0` and announces address `1`; `prevImage` from row `0` reaches
row `1` and announces address `2`. -/
theorem step_moves_current_witness :
    (demoListAt 1).p.WF ∧ (demoListAt 0).p.WF
    ∧ (∃ img, (demoListAt 1).entries.get? 0 = some img ∧
        nextImage (demoListAt 1) = Except.ok { demoListAt 1 with
          selection := { (demoListAt 1).selection with currentIndex := createIndex 0 0 },
          log := (demoListAt 1).log ++ [Event.currentChanged (createIndex 0 0) (createIndex 1 0),
            Event.newImage img, Event.currentRowChanged (createIndex 0 0) (createIndex 1 0)] })
    ∧ (∃ img, (demoListAt 0).entries.get? 1 = some img ∧
        prevImage (demoListAt 0) = Except.ok { demoListAt 0 with
          selection := { (demoListAt 0).selection with currentIndex := createIndex 1 0 },
          log := (demoListAt 0).log ++ [Event.currentChanged (createIndex 1 0) (createIndex 0 0),
            Event.newImage img, Event.currentRowChanged (createIndex 1 0) (createIndex 0 0)] }) :=
  ⟨by decide, by decide,
    (step_moves_current (demoListAt 1) 1 0 (by decide) rfl (by decide) (by decide) (by decide)).1
      (by decide),
    (step_moves_current (demoListAt 0) 0 0 (by decide) rfl (by decide) (by decide) (by decide)).2
      (by decide)⟩

/-- No path whose suffix is `bmp` in lower case passes the guard of `load`. -/
theorem accepts_bmp (env : Env) (file : QString)
    (h : (QFileInfo.suffix file).toLower = "bmp".toList) : accepts env file = false := by
  have : valid.contains (QFileInfo.suffix file).toLower = false := by rw [h]; decide
  unfold accepts
  rw [this, Bool.and_false]

/-- A path that exists, is a regular file and whose suffix is `png` or `jpg` in
lower case passes the guard of `load`. -/
theorem accepts_png_jpg (env : Env) (file : QString) (st : FileStat)
    (hfs : env.fs file = some st) (hfile : st.isFile = true)
    (h : (QFileInfo.suffix file).toLower = "png".toList
      ∨ (QFileInfo.suffix file).toLower = "jpg".toList) : accepts env file = true := by
  have hv : valid.contains (QFileInfo.suffix file).toLower = true := by
    rcases h with h | h <;> rw [h] <;> decide
  unfold accepts
  rw [hv]
  simp [QFileInfo.exists, QFileInfo.isFile, hfs, hfile]

/-- C8, evaluated on the code: `b.bmp` exists and is a regular file, its suffix
is `bmp`, the allow-list is `png, jpg, png`, and `load` of `b.bmp` leaves the
list empty and emits nothing, while `a.png` and `pics/c.JPG` are loaded. -/
theorem load_skips_bmp :
    QFileInfo.exists demoEnv.fs "b.bmp".toList = true
    ∧ QFileInfo.isFile demoEnv.fs "b.bmp".toList = true
    ∧ (QFileInfo.suffix "b.bmp".toList).toLower = "bmp".toList
    ∧ valid = ["png".toList, "jpg".toList, "png".toList]
    ∧ load demoEnv ImageList.init ["b.bmp".toList] = ImageList.init
    ∧ (load demoEnv ImageList.init ["a.png".toList, "pics/c.JPG".toList, "b.bmp".toList]).entries
        = [1, 2] := by
  decide

/-- C9: for a valid row whose entry is not loaded, `data` with the display role
returns the default `QVariant()` for columns 3, 4 and 5, and still returns the
base name, the lower-cased suffix and the size string for columns 0, 1, 2. -/
theorem data_not_loaded (env : Env) (s : ImageList) (row : Int) (img : Nat) (image : Image)
    (hrow : s.p.«at» row = some img) (himg : s.deref img = Except.ok image)
    (hl : image.loaded = false) :
    data env s (createIndex row 3) DisplayRole = Except.ok QVariant.invalid
    ∧ data env s (createIndex row 4) DisplayRole = Except.ok QVariant.invalid
    ∧ data env s (createIndex row 5) DisplayRole = Except.ok QVariant.invalid
    ∧ data env s (createIndex row 0) DisplayRole
        = Except.ok (QVariant.string (QFileInfo.baseName image.path))
    ∧ data env s (createIndex row 1) DisplayRole
        = Except.ok (QVariant.string (QFileInfo.suffix image.path).toLower)
    ∧ data env s (createIndex row 2) DisplayRole
        = Except.ok (QVariant.string
            (formatFixed2 env.tiesAway (toDouble (QFileInfo.size env.fs image.path))
              ++ " kB".toList)) := by
  simp [data, createIndex, hrow, himg, hl, DisplayRole, dataCase3, dataCase4, dataCase5]

/-- C9 at a concrete input: row `1` of the two-entry list, `pics/c.JPG`. -/
theorem data_not_loaded_witness :
    demoList.p.«at» 1 = some 2
    ∧ demoList.deref 2 = Except.ok (Image.new demoEnv "pics/c.JPG".toList)
    ∧ (Image.new demoEnv "pics/c.JPG".toList).loaded = false
    ∧ data demoEnv demoList (createIndex 1 3) DisplayRole = Except.ok QVariant.invalid
    ∧ data demoEnv demoList (createIndex 1 4) DisplayRole = Except.ok QVariant.invalid
    ∧ data demoEnv demoList (createIndex 1 5) DisplayRole = Except.ok QVariant.invalid
    ∧ data demoEnv demoList (createIndex 1 0) DisplayRole = Except.ok (QVariant.string "c".toList)
    ∧ data demoEnv demoList (createIndex 1 1) DisplayRole
        = Except.ok (QVariant.string "jpg".toList) := by
  have h := data_not_loaded demoEnv demoList 1 2 (Image.new demoEnv "pics/c.JPG".toList)
    (by decide) (by decide) (by decide)
  exact ⟨by decide, by decide, by decide, h.1, h.2.1, h.2.2.1, h.2.2.2.1, h.2.2.2.2.1⟩

/-- A size below `2^53` converts to `double` exactly. -/
theorem toDouble_exact (n : Nat) (h : n < 2 ^ 53) : toDouble n = n := by
  unfold toDouble
  rw [if_pos h]

/-- The hundredths shown are within half a hundredth of `d / 1024`. -/
theorem hundredths_nearest (tiesAway : Bool) (d : Nat) :
    1024 * hundredths tiesAway d ≤ 100 * d + 512 ∧ 100 * d ≤ 1024 * hundredths tiesAway d + 512 := by
  unfold hundredths
  simp only []
  split_ifs <;> omega

/-- Column 2 of a valid row, in terms of the conversion and the formatter. -/
theorem data_column2 (env : Env) (s : ImageList) (row : Int) (img : Nat) (image : Image)
    (hrow : s.p.«at» row = some img) (himg : s.deref img = Except.ok image) :
    data env s (createIndex row 2) DisplayRole
      = Except.ok (QVariant.string
          (formatFixed2 env.tiesAway (toDouble (QFileInfo.size env.fs image.path))
            ++ " kB".toList)) := by
  simp [data, createIndex, hrow, himg, DisplayRole]

/-- From `2^53` on, the conversion gives the multiple of `2^(log2 n - 52)`
nearest to `n`, the even multiple on a tie, with at most 53 significant bits. -/
theorem toDouble_nearest (n : Nat) (h : 2 ^ 53 ≤ n) :
    2 ^ (Nat.log2 n - 52) ∣ toDouble n
    ∧ 2 * toDouble n ≤ 2 * n + 2 ^ (Nat.log2 n - 52)
    ∧ 2 * n ≤ 2 * toDouble n + 2 ^ (Nat.log2 n - 52)
    ∧ ((2 * toDouble n + 2 ^ (Nat.log2 n - 52) = 2 * n
          ∨ 2 * n + 2 ^ (Nat.log2 n - 52) = 2 * toDouble n)
        → toDouble n / 2 ^ (Nat.log2 n - 52) % 2 = 0)
    ∧ toDouble n / 2 ^ (Nat.log2 n - 52) ≤ 2 ^ 53 := by
  have hn0 : n ≠ 0 := by
    have : 0 < 2 ^ 53 := by norm_num
    omega
  have hlog : 53 ≤ Nat.log2 n := (Nat.le_log2 hn0).2 h
  obtain ⟨e, he⟩ : ∃ e, Nat.log2 n - 52 = e + 1 := ⟨Nat.log2 n - 53, by omega⟩
  have hlt : n < 2 ^ (e + 1) * 2 ^ 53 := by
    have := @Nat.lt_log2_self n
    have hexp : Nat.log2 n + 1 = (e + 1) + 53 := by omega
    rw [hexp, Nat.pow_add] at this
    exact this
  have hP : 2 ^ (e + 1) = 2 * 2 ^ e := by rw [Nat.pow_succ]; ring
  have hpos : 0 < 2 ^ e := Nat.pow_pos (by norm_num)
  have hq : n / 2 ^ (e + 1) < 2 ^ 53 := Nat.div_lt_of_lt_mul hlt
  have hdm : 2 ^ (e + 1) * (n / 2 ^ (e + 1)) + n % 2 ^ (e + 1) = n := Nat.div_add_mod n _
  have hr : n % 2 ^ (e + 1) < 2 ^ (e + 1) := Nat.mod_lt _ (by rw [hP]; omega)
  have hnot : ¬ n < 2 ^ 53 := by omega
  have htd : toDouble n
      = (if n % 2 ^ (e + 1) > 2 ^ e
            ∨ (n % 2 ^ (e + 1) = 2 ^ e ∧ n / 2 ^ (e + 1) % 2 = 1)
          then n / 2 ^ (e + 1) + 1 else n / 2 ^ (e + 1)) * 2 ^ (e + 1) := by
    unfold toDouble
    rw [if_neg hnot]
    simp only [he, Nat.add_sub_cancel]
  rw [he, htd]
  generalize hqd : n / 2 ^ (e + 1) = q at *
  generalize hrd : n % 2 ^ (e + 1) = r at *
  have hPpos : 0 < 2 ^ (e + 1) := by rw [hP]; omega
  split_ifs with hc
  · rw [Nat.mul_div_cancel _ hPpos]
    have hmul : (q + 1) * 2 ^ (e + 1) = 2 ^ (e + 1) * q + 2 ^ (e + 1) := by ring
    refine ⟨Dvd.intro_left _ rfl, ?_, ?_, ?_, ?_⟩
    · rw [hmul]; omega
    · rw [hmul]; omega
    · rw [hmul]; omega
    · omega
  · rw [Nat.mul_div_cancel _ hPpos]
    have hmul : q * 2 ^ (e + 1) = 2 ^ (e + 1) * q := by ring
    refine ⟨Dvd.intro_left _ rfl, ?_, ?_, ?_, ?_⟩
    · rw [hmul]; omega
    · rw [hmul]; omega
    · rw [hmul]; omega
    · omega

/-- The conversion of `2^60 + 100` is `2^60`. -/
theorem toDouble_huge : toDouble (2 ^ 60 + 100) = 2 ^ 60 := by
  have hn0 : (2 ^ 60 + 100 : Nat) ≠ 0 := by norm_num
  have h1 : 60 ≤ Nat.log2 (2 ^ 60 + 100) := (Nat.le_log2 hn0).2 (by norm_num)
  have h2 : Nat.log2 (2 ^ 60 + 100) < 61 := (Nat.log2_lt hn0).2 (by norm_num)
  have hlog : Nat.log2 (2 ^ 60 + 100) = 60 := by omega
  unfold toDouble
  rw [hlog]
  norm_num

/-- C10, as amended: for a valid row, `data` with the display role at column 2
is the string made of the decimal digits of the whole part, a point, exactly
two decimals and ` kB`, of the hundredths nearest to `d / 1024`, where `d` is
the file size converted to `double`: the file size itself below `2^53` bytes
(so that the string shows `size / 1024`), and from `2^53` bytes on the multiple
of `2^(log2 size - 52)` nearest to the file size, the even multiple on a tie;
for a file of 2048 bytes the string is `2.00 kB`. -/
theorem data_size_column (env : Env) (s : ImageList) (row : Int) (img : Nat) (image : Image)
    (size : Nat) (hrow : s.p.«at» row = some img) (himg : s.deref img = Except.ok image)
    (hsize : QFileInfo.size env.fs image.path = size) :
    data env s (createIndex row 2) DisplayRole
        = Except.ok (QVariant.string
            (Nat.toDigits 10 (hundredths env.tiesAway (toDouble size) / 100)
              ++ ['.', Nat.digitChar (hundredths env.tiesAway (toDouble size) / 10 % 10),
                    Nat.digitChar (hundredths env.tiesAway (toDouble size) % 10)]
              ++ " kB".toList))
    ∧ 1024 * hundredths env.tiesAway (toDouble size) ≤ 100 * toDouble size + 512
    ∧ 100 * toDouble size ≤ 1024 * hundredths env.tiesAway (toDouble size) + 512
    ∧ (size < 2 ^ 53 →
        toDouble size = size
        ∧ data env s (createIndex row 2) DisplayRole
            = Except.ok (QVariant.string (formatFixed2 env.tiesAway size ++ " kB".toList)))
    ∧ (2 ^ 53 ≤ size →
        2 ^ (Nat.log2 size - 52) ∣ toDouble size
        ∧ 2 * toDouble size ≤ 2 * size + 2 ^ (Nat.log2 size - 52)
        ∧ 2 * size ≤ 2 * toDouble size + 2 ^ (Nat.log2 size - 52)
        ∧ ((2 * toDouble size + 2 ^ (Nat.log2 size - 52) = 2 * size
              ∨ 2 * size + 2 ^ (Nat.log2 size - 52) = 2 * toDouble size)
            → toDouble size / 2 ^ (Nat.log2 size - 52) % 2 = 0)
        ∧ toDouble size / 2 ^ (Nat.log2 size - 52) ≤ 2 ^ 53)
    ∧ (size = 2048 →
        data env s (createIndex row 2) DisplayRole = Except.ok (QVariant.string "2.00 kB".toList)) := by
  have hd : data env s (createIndex row 2) DisplayRole
      = Except.ok (QVariant.string (formatFixed2 env.tiesAway (toDouble size) ++ " kB".toList)) := by
    rw [data_column2 env s row img image hrow himg, hsize]
  refine ⟨by rw [hd]; rfl, (hundredths_nearest _ _).1, (hundredths_nearest _ _).2, ?_,
    toDouble_nearest size, ?_⟩
  · intro h
    refine ⟨toDouble_exact size h, ?_⟩
    rw [hd, toDouble_exact size h]
  · intro h
    rw [hd, h]
    cases env.tiesAway <;> decide

/-- C10 at concrete inputs: row `0` of the two-entry list, `a.png` of 2048
bytes, and row `0` of `hugeList`, a file of `2^60 + 100` bytes, whose size
converts to `2^60`. -/
theorem data_size_column_witness :
    demoList.p.«at» 0 = some 1
    ∧ demoList.deref 1 = Except.ok (Image.new demoEnv "a.png".toList)
    ∧ QFileInfo.size demoEnv.fs (Image.new demoEnv "a.png".toList).path = 2048
    ∧ data demoEnv demoList (createIndex 0 2) DisplayRole
        = Except.ok (QVariant.string "2.00 kB".toList)
    ∧ hugeList.p.«at» 0 = some 1
    ∧ hugeList.deref 1 = Except.ok (Image.new hugeEnv "huge.png".toList)
    ∧ QFileInfo.size hugeEnv.fs (Image.new hugeEnv "huge.png".toList).path = 2 ^ 60 + 100
    ∧ 2 ^ (Nat.log2 (2 ^ 60 + 100) - 52) ∣ toDouble (2 ^ 60 + 100)
    ∧ 2 * (2 ^ 60 + 100) ≤ 2 * toDouble (2 ^ 60 + 100) + 2 ^ (Nat.log2 (2 ^ 60 + 100) - 52) := by
  have h := data_size_column demoEnv demoList 0 1 (Image.new demoEnv "a.png".toList) 2048
    (by decide) (by decide) (by decide)
  have g := data_size_column hugeEnv hugeList 0 1 (Image.new hugeEnv "huge.png".toList)
    (2 ^ 60 + 100) (by decide) (by decide) (by decide)
  have g2 := g.2.2.2.2.1 (by norm_num)
  exact ⟨by decide, by decide, by decide, h.2.2.2.2.2 rfl, by decide, by decide, by decide,
    g2.1, g2.2.2.1⟩

/-- C10 as first stated fails: for the file of `2^60 + 100` bytes, `size / 1024`
is `1125899906842624.09765625`, which to two decimals is `1125899906842624.10`
under either tie rule, while `data` returns `1125899906842624.00 kB` under
either tie rule, the size having been rounded to the `double` `2^60`. -/
theorem data_size_column_counterexample :
    hugeList.p.«at» 0 = some 1
    ∧ hugeList.deref 1 = Except.ok (Image.new hugeEnv "huge.png".toList)
    ∧ QFileInfo.size hugeEnv.fs (Image.new hugeEnv "huge.png".toList).path = 2 ^ 60 + 100
    ∧ formatFixed2 true (2 ^ 60 + 100) = "1125899906842624.10".toList
    ∧ formatFixed2 false (2 ^ 60 + 100) = "1125899906842624.10".toList
    ∧ data hugeEnv hugeList (createIndex 0 2) DisplayRole
        = Except.ok (QVariant.string "1125899906842624.00 kB".toList)
    ∧ data { hugeEnv with tiesAway := false } hugeList (createIndex 0 2) DisplayRole
        = Except.ok (QVariant.string "1125899906842624.00 kB".toList)
    ∧ data hugeEnv hugeList (createIndex 0 2) DisplayRole
        ≠ Except.ok (QVariant.string
            (formatFixed2 hugeEnv.tiesAway (2 ^ 60 + 100) ++ " kB".toList)) := by
  have hsz : QFileInfo.size hugeEnv.fs (Image.new hugeEnv "huge.png".toList).path
      = 2 ^ 60 + 100 := by decide
  have hd1 : data hugeEnv hugeList (createIndex 0 2) DisplayRole
      = Except.ok (QVariant.string "1125899906842624.00 kB".toList) := by
    rw [data_column2 hugeEnv hugeList 0 1 (Image.new hugeEnv "huge.png".toList)
      (by decide) (by decide), hsz, toDouble_huge]
    decide
  have hd2 : data { hugeEnv with tiesAway := false } hugeList (createIndex 0 2) DisplayRole
      = Except.ok (QVariant.string "1125899906842624.00 kB".toList) := by
    rw [data_column2 { hugeEnv with tiesAway := false } hugeList 0 1
      (Image.new hugeEnv "huge.png".toList) (by decide) (by decide)]
    show Except.ok (QVariant.string (formatFixed2 false (toDouble (QFileInfo.size hugeEnv.fs
      (Image.new hugeEnv "huge.png".toList).path)) ++ " kB".toList)) = _
    rw [hsz, toDouble_huge]
    decide
  refine ⟨by decide, by decide, hsz, by decide, by decide, hd1, hd2, ?_⟩
  rw [hd1]
  decide

end ImageList

end Pastie
